import Mathlib

/-!
Verification model of the duffel-backend repository.

The repository is a small Express backend over the Duffel flights API.  Its
core logic, embedded here, is:

* JavaScript numeric coercion of provider-supplied decimal price strings
  (`Number(offer.total_amount)`), modelled by `jsNum` where `none` stands for
  a non-finite result (NaN); finite values are exact scaled decimals
  (`DecNum`, the value `num / 10 ^ scale`), compared by integer
  cross-multiplication, which agrees with the rational order (`jsLtB_some_iff`);
* the per-destination cheapest-offer selection and the cross-destination
  winner selection, both written in the source as `Array.prototype.reduce`
  with a `null` seed (`jsMinReduce`);
* the `/quote` fan-out loop over the destination pool with its USD price
  ceiling and per-destination diagnostics (`quoteStep`, `quoteLoop`,
  `quoteSearch`, from the `part_004` variant);
* the `splitName` and `pickCheapestOffer` helpers of `server.js`;
* the `/hold` order payload construction (`server.js` and `part_001`) and
  the hold response assembly of `server.js`.
-/

namespace Duffel

/-- A finite JavaScript number arising from a decimal numeral: the exact
value `num / 10 ^ scale`. -/
structure DecNum where
  num : Int
  scale : Nat
deriving Repr, DecidableEq

/-- The rational value of a scaled decimal. -/
def DecNum.val (a : DecNum) : ℚ := (a.num : ℚ) / (10 : ℚ) ^ a.scale

/-- Value denoted by a base-10 digit sequence (most significant first). -/
def digitsToNat (cs : List Char) : Nat :=
  cs.foldl (fun n c => n * 10 + (c.toNat - 48)) 0

/-- Optional leading sign of a JavaScript numeric literal. -/
def jsSign : List Char → Int × List Char
  | '-' :: r => (-1, r)
  | '+' :: r => (1, r)
  | r => (1, r)

/-- Model of JavaScript string trimming (whitespace off both ends). -/
def jsTrim (cs : List Char) : List Char :=
  ((cs.dropWhile Char.isWhitespace).reverse.dropWhile Char.isWhitespace).reverse

/-- Model of JavaScript `Number()` applied to a trimmed character list,
restricted to optionally signed plain decimal numerals, which is the domain
of provider price strings.  `none` stands for a non-finite result (NaN, as
produced by a non-numeric string); `Number("") = 0` as in JavaScript. -/
def jsNumCore (cs : List Char) : Option DecNum :=
  if cs.isEmpty then some ⟨0, 0⟩
  else
    let sr := jsSign cs
    let intPart := sr.2.takeWhile Char.isDigit
    let tail := sr.2.dropWhile Char.isDigit
    match tail with
    | [] => if intPart.isEmpty then none else some ⟨sr.1 * (digitsToNat intPart : Int), 0⟩
    | '.' :: frac =>
      if frac.all Char.isDigit && !(intPart.isEmpty && frac.isEmpty) then
        some ⟨sr.1 * ((digitsToNat intPart : Int) * (10 : Int) ^ frac.length +
                (digitsToNat frac : Int)), frac.length⟩
      else none
    | _ => none

/-- Model of JavaScript `Number(s)` for a string `s` (JS trims whitespace). -/
def jsNum (s : String) : Option DecNum := jsNumCore (jsTrim s.data)

/-- JavaScript `<` on two `Number` results: any comparison involving NaN is
false; on finite values, comparison of the exact decimal values by integer
cross-multiplication. -/
def jsLtB : Option DecNum → Option DecNum → Bool
  | some a, some b => decide (a.num * (10 : ℤ) ^ b.scale < b.num * (10 : ℤ) ^ a.scale)
  | _, _ => false

/-- JavaScript `>` on two `Number` results. -/
def jsGtB (a b : Option DecNum) : Bool := jsLtB b a

/-- The rational value of a possibly-NaN number, defaulting NaN to 0 (used
only under a hypothesis that the value is finite). -/
def valD (o : Option DecNum) : ℚ := (o.getD ⟨0, 0⟩).val

theorem jsLtB_some_iff (a b : DecNum) : jsLtB (some a) (some b) = true ↔ a.val < b.val := by
  simp only [jsLtB, decide_eq_true_eq]
  unfold DecNum.val
  rw [div_lt_div_iff₀ (by positivity) (by positivity)]
  constructor <;> intro h <;> exact_mod_cast h

theorem valD_some (a : DecNum) : valD (some a) = a.val := rfl

/-- A provider offer as used by the backend: `total_amount` is a decimal
string such as `"97.32"`. -/
structure Offer where
  id : String
  total_amount : String
  total_currency : String
deriving Repr, DecidableEq

/-- One entry of the `/quote` `results` array (`part_004`). -/
structure QuoteResult where
  destination : String
  offer_id : String
  total_amount : String
  total_currency : String
deriving Repr, DecidableEq

/-- One entry of the `/quote` `errors` array (`part_004`): `offer_request`
and `offers_fetch` entries carry a status and a truncated body, `exception`
entries carry a message. -/
structure DiagEntry where
  step : String
  destination : String
  status : Option Nat
  body : Option String
  message : Option String
deriving Repr, DecidableEq

/-- What the provider does for one destination of the fan-out: the offer
request fails, succeeds without an id, the offers fetch fails, offers come
back, or an exception is thrown. -/
inductive DestOutcome where
  | reqFail (status : Nat) (body : String)
  | reqNoId
  | offersFail (status : Nat) (body : String)
  | offersOk (offers : List Offer)
  | threw (message : String)
deriving Repr, DecidableEq

/-- `Array.prototype.reduce` with callback
`(min, o) => { if (!min) return o; return key(o) < key(min) ? o : min }`,
running accumulator state made explicit. -/
def jsMinGo {α : Type} (key : α → Option DecNum) : Option α → List α → Option α
  | acc, [] => acc
  | none, o :: l => jsMinGo key (some o) l
  | some m, o :: l => jsMinGo key (if jsLtB (key o) (key m) then some o else some m) l

/-- `list.reduce((min, o) => !min ? o : (key(o) < key(min) ? o : min), null)`:
the min-by-key reduce with `null` seed used throughout the source. -/
def jsMinReduce {α : Type} (key : α → Option DecNum) (l : List α) : Option α :=
  jsMinGo key none l

theorem jsMinGo_mem {α : Type} (key : α → Option DecNum) :
    ∀ (l : List α) (m w : α), jsMinGo key (some m) l = some w → w = m ∨ w ∈ l := by
  intro l
  induction l with
  | nil =>
    intro m w h
    simp only [jsMinGo, Option.some.injEq] at h
    exact Or.inl h.symm
  | cons o l ih =>
    intro m w h
    simp only [jsMinGo] at h
    by_cases hc : jsLtB (key o) (key m) = true
    · rw [if_pos hc] at h
      rcases ih o w h with rfl | hm
      · exact Or.inr (List.mem_cons_self _ _)
      · exact Or.inr (List.mem_cons_of_mem _ hm)
    · rw [if_neg hc] at h
      rcases ih m w h with rfl | hm
      · exact Or.inl rfl
      · exact Or.inr (List.mem_cons_of_mem _ hm)

theorem jsMinGo_isSome {α : Type} (key : α → Option DecNum) :
    ∀ (l : List α) (m : α), (jsMinGo key (some m) l).isSome := by
  intro l
  induction l with
  | nil => intro m; rfl
  | cons o l ih =>
    intro m
    simp only [jsMinGo]
    by_cases hc : jsLtB (key o) (key m) = true
    · rw [if_pos hc]; exact ih o
    · rw [if_neg hc]; exact ih m

theorem jsMinReduce_mem {α : Type} (key : α → Option DecNum) (l : List α) (w : α)
    (h : jsMinReduce key l = some w) : w ∈ l := by
  cases l with
  | nil => simp [jsMinReduce, jsMinGo] at h
  | cons o t =>
    have h2 : jsMinGo key (some o) t = some w := by
      simpa [jsMinReduce, jsMinGo] using h
    rcases jsMinGo_mem key t o w h2 with rfl | hm
    · exact List.mem_cons_self _ _
    · exact List.mem_cons_of_mem _ hm

theorem jsMinReduce_eq_none_iff {α : Type} (key : α → Option DecNum) (l : List α) :
    jsMinReduce key l = none ↔ l = [] := by
  cases l with
  | nil => simp [jsMinReduce, jsMinGo]
  | cons o t =>
    simp only [jsMinReduce, jsMinGo]
    constructor
    · intro h
      have := jsMinGo_isSome key t o
      rw [h] at this
      cases this
    · intro h; cases h

theorem jsMinGo_min {α : Type} (key : α → Option DecNum) :
    ∀ (l : List α), (∀ a ∈ l, (key a).isSome) →
      ∀ (m : α), (key m).isSome →
        ∃ w, jsMinGo key (some m) l = some w ∧ (w = m ∨ w ∈ l) ∧ (key w).isSome ∧
          valD (key w) ≤ valD (key m) ∧ ∀ a ∈ l, valD (key w) ≤ valD (key a) := by
  intro l
  induction l with
  | nil =>
    intro _ m hm
    exact ⟨m, rfl, Or.inl rfl, hm, le_refl _, by simp⟩
  | cons o l ih =>
    intro hl m hm
    have ho : (key o).isSome := hl o (List.mem_cons_self _ _)
    have hl2 : ∀ a ∈ l, (key a).isSome := fun a ha => hl a (List.mem_cons_of_mem _ ha)
    obtain ⟨qo, hqo⟩ := Option.isSome_iff_exists.mp ho
    obtain ⟨qm, hqm⟩ := Option.isSome_iff_exists.mp hm
    simp only [jsMinGo]
    by_cases hc : jsLtB (key o) (key m) = true
    · rw [if_pos hc]
      have hlt : qo.val < qm.val := by
        rw [hqo, hqm] at hc
        exact (jsLtB_some_iff qo qm).mp hc
      obtain ⟨w, hw, hmem, hws, hle, hall⟩ := ih hl2 o ho
      refine ⟨w, hw, ?_, hws, ?_, ?_⟩
      · rcases hmem with rfl | hmem
        · exact Or.inr (List.mem_cons_self _ _)
        · exact Or.inr (List.mem_cons_of_mem _ hmem)
      · have hom : valD (key o) ≤ valD (key m) := by
          rw [hqo, hqm, valD_some, valD_some]
          exact le_of_lt hlt
        exact le_trans hle hom
      · intro a ha
        rcases List.mem_cons.mp ha with rfl | ha
        · exact hle
        · exact hall a ha
    · rw [if_neg hc]
      have hge : qm.val ≤ qo.val := by
        rw [hqo, hqm] at hc
        exact le_of_not_lt (fun hlt => hc ((jsLtB_some_iff qo qm).mpr hlt))
      obtain ⟨w, hw, hmem, hws, hle, hall⟩ := ih hl2 m hm
      refine ⟨w, hw, ?_, hws, hle, ?_⟩
      · rcases hmem with rfl | hmem
        · exact Or.inl rfl
        · exact Or.inr (List.mem_cons_of_mem _ hmem)
      · intro a ha
        rcases List.mem_cons.mp ha with rfl | ha
        · have hma : valD (key m) ≤ valD (key a) := by
            rw [hqm, hqo, valD_some, valD_some]
            exact hge
          exact le_trans hle hma
        · exact hall a ha

theorem jsMinReduce_min {α : Type} (key : α → Option DecNum) (l : List α)
    (hl : ∀ a ∈ l, (key a).isSome) (w : α) (h : jsMinReduce key l = some w) :
    w ∈ l ∧ (key w).isSome ∧ ∀ a ∈ l, valD (key w) ≤ valD (key a) := by
  cases l with
  | nil => simp [jsMinReduce, jsMinGo] at h
  | cons o t =>
    have ho : (key o).isSome := hl o (List.mem_cons_self _ _)
    have ht : ∀ a ∈ t, (key a).isSome := fun a ha => hl a (List.mem_cons_of_mem _ ha)
    obtain ⟨w2, hw2, hmem, hws, hle, hall⟩ := jsMinGo_min key t ht o ho
    have h2 : jsMinGo key (some o) t = some w := by
      simpa [jsMinReduce, jsMinGo] using h
    rw [h2] at hw2
    obtain rfl : w2 = w := Option.some.inj hw2.symm
    refine ⟨?_, hws, ?_⟩
    · rcases hmem with rfl | hmem
      · exact List.mem_cons_self _ _
      · exact List.mem_cons_of_mem _ hmem
    · intro a ha
      rcases List.mem_cons.mp ha with rfl | ha
      · exact hle
      · exact hall a ha

/-- JavaScript `s.slice(0, n)` (used as `body.slice(0, 300)`). -/
def jsSlice (s : String) (n : Nat) : String := String.mk (s.data.take n)

/-- The USD price ceiling of the `/quote` fan-out (`part_004`):
`cheapest.total_currency === "USD" && Number(cheapest.total_amount) > maxPriceUsd`. -/
def ceilingRejects (o : Offer) (maxPriceUsd : DecNum) : Bool :=
  o.total_currency == "USD" && jsGtB (jsNum o.total_amount) (some maxPriceUsd)

/-- Per-destination cheapest selection of the `/quote` fan-out (`part_004`):
`offers.reduce((min, o) => !min ? o : (Number(o.total_amount) < Number(min.total_amount) ? o : min), null)`. -/
def cheapestReduce (offers : List Offer) : Option Offer :=
  jsMinReduce (fun o => jsNum o.total_amount) offers

/-- One iteration of the `/quote` destination loop of `part_004`, acting on
the accumulated `(results, errors)` pair: skip destinations equal to the
origin, record a diagnostic and skip on a failed offer request / offers
fetch / exception, skip silently when no offers or no id come back, apply
the USD ceiling to the destination's cheapest offer, and otherwise push the
destination's candidate. -/
def quoteStep (provider : String → DestOutcome) (maxPriceUsd : DecNum) (origin : String)
    (acc : List QuoteResult × List DiagEntry) (dest : String) :
    List QuoteResult × List DiagEntry :=
  if dest = origin then acc
  else
    match provider dest with
    | .reqFail st body =>
      (acc.1, acc.2 ++ [⟨"offer_request", dest, some st, some (jsSlice body 300), none⟩])
    | .reqNoId => acc
    | .offersFail st body =>
      (acc.1, acc.2 ++ [⟨"offers_fetch", dest, some st, some (jsSlice body 300), none⟩])
    | .threw msg => (acc.1, acc.2 ++ [⟨"exception", dest, none, none, some msg⟩])
    | .offersOk offers =>
      match cheapestReduce offers with
      | none => acc
      | some cheapest =>
        if ceilingRejects cheapest maxPriceUsd then acc
        else (acc.1 ++ [⟨dest, cheapest.id, cheapest.total_amount, cheapest.total_currency⟩],
              acc.2)

/-- The whole `/quote` destination loop: `(results, errors)` after iterating
`quoteStep` over the destination pool in order. -/
def quoteLoop (provider : String → DestOutcome) (maxPriceUsd : DecNum) (origin : String)
    (pool : List String) : List QuoteResult × List DiagEntry :=
  pool.foldl (quoteStep provider maxPriceUsd origin) ([], [])

/-- The candidate one destination contributes to `results`, in isolation. -/
def destCandidate (provider : String → DestOutcome) (maxPriceUsd : DecNum) (origin dest : String) :
    Option QuoteResult :=
  if dest = origin then none
  else
    match provider dest with
    | .offersOk offers =>
      match cheapestReduce offers with
      | none => none
      | some cheapest =>
        if ceilingRejects cheapest maxPriceUsd then none
        else some ⟨dest, cheapest.id, cheapest.total_amount, cheapest.total_currency⟩
    | _ => none

/-- The diagnostic one destination contributes to `errors`, in isolation. -/
def destDiag (provider : String → DestOutcome) (origin dest : String) : Option DiagEntry :=
  if dest = origin then none
  else
    match provider dest with
    | .reqFail st body => some ⟨"offer_request", dest, some st, some (jsSlice body 300), none⟩
    | .offersFail st body => some ⟨"offers_fetch", dest, some st, some (jsSlice body 300), none⟩
    | .threw msg => some ⟨"exception", dest, none, none, some msg⟩
    | _ => none

/-- Winner selection across destinations (`part_004`):
`results.reduce((min, r) => !min ? r : (Number(r.total_amount) < Number(min.total_amount) ? r : min), null)`. -/
def winnerReduce (results : List QuoteResult) : Option QuoteResult :=
  jsMinReduce (fun r => jsNum r.total_amount) results

/-- Outcome of a `/quote` search: either the 502 "No eligible offers found"
response carrying `errors.slice(0, 5)`, or the winning quote fields. -/
inductive QuoteOutcome where
  | noEligible (errors_sample : List DiagEntry)
  | ok (winner : QuoteResult)
deriving Repr, DecidableEq

/-- The `/quote` aggregator of `part_004`: run the fan-out loop, return
"no eligible offers" with at most 5 diagnostics when `results` is empty
(the `reduce` with `null` seed is `null` exactly on the empty array,
`jsMinReduce_eq_none_iff`), else the winner of the reduce. -/
def quoteSearch (provider : String → DestOutcome) (maxPriceUsd : DecNum) (origin : String)
    (pool : List String) : QuoteOutcome :=
  match winnerReduce (quoteLoop provider maxPriceUsd origin pool).1 with
  | none => .noEligible ((quoteLoop provider maxPriceUsd origin pool).2.take 5)
  | some w => .ok w

theorem quoteStep_eq (provider : String → DestOutcome) (maxPriceUsd : DecNum) (origin : String)
    (acc : List QuoteResult × List DiagEntry) (dest : String) :
    quoteStep provider maxPriceUsd origin acc dest =
      (acc.1 ++ (destCandidate provider maxPriceUsd origin dest).toList,
       acc.2 ++ (destDiag provider origin dest).toList) := by
  unfold quoteStep destCandidate destDiag
  by_cases h : dest = origin
  · simp [h]
  · rw [if_neg h, if_neg h, if_neg h]
    cases hp : provider dest with
    | reqFail st body => simp
    | reqNoId => simp
    | offersFail st body => simp
    | threw msg => simp
    | offersOk offers =>
      cases hc : cheapestReduce offers with
      | none => simp [hc]
      | some cheapest =>
        by_cases hr : ceilingRejects cheapest maxPriceUsd = true
        · simp [hc, hr]
        · simp [hc, hr]

theorem quoteLoop_go (provider : String → DestOutcome) (maxPriceUsd : DecNum) (origin : String) :
    ∀ (pool : List String) (acc : List QuoteResult × List DiagEntry),
      pool.foldl (quoteStep provider maxPriceUsd origin) acc =
        (acc.1 ++ pool.filterMap (destCandidate provider maxPriceUsd origin),
         acc.2 ++ pool.filterMap (destDiag provider origin)) := by
  intro pool
  induction pool with
  | nil => intro acc; simp
  | cons d t ih =>
    intro acc
    rw [List.foldl_cons, ih, quoteStep_eq]
    cases hc : destCandidate provider maxPriceUsd origin d <;>
      cases hd : destDiag provider origin d <;>
        simp [List.filterMap_cons, hc, hd]

/-- The fan-out decomposes per destination: each destination contributes
its candidate and its diagnostic independently of all others. -/
theorem quoteLoop_eq (provider : String → DestOutcome) (maxPriceUsd : DecNum) (origin : String)
    (pool : List String) :
    quoteLoop provider maxPriceUsd origin pool =
      (pool.filterMap (destCandidate provider maxPriceUsd origin),
       pool.filterMap (destDiag provider origin)) := by
  have h := quoteLoop_go provider maxPriceUsd origin pool ([], [])
  simpa [quoteLoop] using h

/-- A candidate comes from the cheapest reduce over the destination's
offers: the pushed `QuoteResult` copies that offer's fields verbatim. -/
theorem destCandidate_inv (provider : String → DestOutcome) (maxPriceUsd : DecNum)
    (origin dest : String) (r : QuoteResult)
    (h : destCandidate provider maxPriceUsd origin dest = some r) :
    dest ≠ origin ∧ ∃ offers cheapest, provider dest = .offersOk offers ∧
      cheapestReduce offers = some cheapest ∧ cheapest ∈ offers ∧
      ceilingRejects cheapest maxPriceUsd = false ∧
      r = ⟨dest, cheapest.id, cheapest.total_amount, cheapest.total_currency⟩ := by
  unfold destCandidate at h
  split at h
  · exact absurd h (by simp)
  next hdo =>
    refine ⟨hdo, ?_⟩
    split at h
    next offers heq =>
      split at h
      · exact absurd h (by simp)
      next cheapest heq2 =>
        split at h
        · exact absurd h (by simp)
        next hr =>
          exact ⟨offers, cheapest, heq, heq2, jsMinReduce_mem _ _ _ heq2,
            by simpa using hr, (Option.some.inj h).symm⟩
    next hne => exact absurd h (by simp)

/-- Whitespace tokenisation, accumulator form: the maximal runs of
non-whitespace characters, in order. -/
def wsTokensGo : List Char → List Char → List (List Char)
  | cur, [] => if cur.isEmpty then [] else [cur.reverse]
  | cur, c :: rest =>
    if c.isWhitespace then
      if cur.isEmpty then wsTokensGo [] rest
      else cur.reverse :: wsTokensGo [] rest
    else wsTokensGo (c :: cur) rest

/-- JavaScript `trimmed.split(/\s+/)` on a trimmed, non-empty string: its
maximal runs of non-whitespace characters. -/
def wsTokens (cs : List Char) : List String :=
  (wsTokensGo [] cs).map String.mk

/-- JavaScript `parts.join(" ")`. -/
def joinSpace : List String → String
  | [] => ""
  | [t] => t
  | t :: rest => t ++ " " ++ joinSpace rest

/-- `splitName` of `server.js`: trim, default both parts on an empty name,
default the family name on a single token, else
`given_name = parts.slice(0, -1).join(" ")` and
`family_name = parts.slice(-1).join("")` (the last token). -/
def splitName (fullName : String) : String × String :=
  let trimmed := jsTrim fullName.data
  if trimmed.isEmpty then ("Test", "User")
  else
    let parts := wsTokens trimmed
    if parts.length = 1 then (parts.headD "", "User")
    else (joinSpace parts.dropLast, parts.getLastD "")

/-- Running state of the `pickCheapestOffer` loop of `server.js`: skip
offers whose amount is not finite, seed with the first finite offer, then
keep the strictly cheaper one. -/
def pickCheapestGo : Option Offer → List Offer → Option Offer
  | cheapest, [] => cheapest
  | cheapest, offer :: rest =>
    pickCheapestGo
      (if (jsNum offer.total_amount).isSome = false then cheapest
       else
         match cheapest with
         | none => some offer
         | some ch =>
           if jsLtB (jsNum offer.total_amount) (jsNum ch.total_amount) then some offer
           else some ch)
      rest

/-- `pickCheapestOffer` of `server.js` (an empty or non-array input yields
`null`, here the empty list). -/
def pickCheapestOffer (offers : List Offer) : Option Offer :=
  pickCheapestGo none offers

theorem pickCheapestGo_spec :
    ∀ (l : List Offer) (ch : Offer), (jsNum ch.total_amount).isSome →
      ∃ w, pickCheapestGo (some ch) l = some w ∧ (w = ch ∨ w ∈ l) ∧
        (jsNum w.total_amount).isSome ∧
        valD (jsNum w.total_amount) ≤ valD (jsNum ch.total_amount) ∧
        ∀ o ∈ l, ∀ p, jsNum o.total_amount = some p → valD (jsNum w.total_amount) ≤ p.val := by
  intro l
  induction l with
  | nil =>
    intro ch hch
    exact ⟨ch, rfl, Or.inl rfl, hch, le_refl _, by simp⟩
  | cons o l ih =>
    intro ch hch
    simp only [pickCheapestGo]
    by_cases ho : (jsNum o.total_amount).isSome = false
    · rw [if_pos ho]
      obtain ⟨w, hw, hmem, hws, hle, hall⟩ := ih ch hch
      refine ⟨w, hw, ?_, hws, hle, ?_⟩
      · rcases hmem with rfl | hmem
        · exact Or.inl rfl
        · exact Or.inr (List.mem_cons_of_mem _ hmem)
      · intro a ha p hp
        rcases List.mem_cons.mp ha with rfl | ha
        · rw [hp] at ho; cases ho
        · exact hall a ha p hp
    · rw [if_neg ho]
      have ho2 : (jsNum o.total_amount).isSome := by
        simp only [Bool.not_eq_false] at ho
        exact ho
      obtain ⟨qo, hqo⟩ := Option.isSome_iff_exists.mp ho2
      obtain ⟨qc, hqc⟩ := Option.isSome_iff_exists.mp hch
      by_cases hlt : jsLtB (jsNum o.total_amount) (jsNum ch.total_amount) = true
      · rw [if_pos hlt]
        have hq : qo.val < qc.val := by
          rw [hqo, hqc] at hlt
          exact (jsLtB_some_iff qo qc).mp hlt
        obtain ⟨w, hw, hmem, hws, hle, hall⟩ := ih o ho2
        refine ⟨w, hw, ?_, hws, ?_, ?_⟩
        · rcases hmem with rfl | hmem
          · exact Or.inr (List.mem_cons_self _ _)
          · exact Or.inr (List.mem_cons_of_mem _ hmem)
        · have hoc : valD (jsNum o.total_amount) ≤ valD (jsNum ch.total_amount) := by
            rw [hqo, hqc, valD_some, valD_some]
            exact le_of_lt hq
          exact le_trans hle hoc
        · intro a ha p hp
          rcases List.mem_cons.mp ha with rfl | ha
          · have hpq : p = qo := by rw [hqo] at hp; exact (Option.some.inj hp).symm
            rw [hpq, ← valD_some qo, ← hqo]
            exact hle
          · exact hall a ha p hp
      · rw [if_neg hlt]
        have hq : qc.val ≤ qo.val := by
          rw [hqo, hqc] at hlt
          exact le_of_not_lt (fun h => hlt ((jsLtB_some_iff qo qc).mpr h))
        obtain ⟨w, hw, hmem, hws, hle, hall⟩ := ih ch hch
        refine ⟨w, hw, ?_, hws, hle, ?_⟩
        · rcases hmem with rfl | hmem
          · exact Or.inl rfl
          · exact Or.inr (List.mem_cons_of_mem _ hmem)
        · intro a ha p hp
          rcases List.mem_cons.mp ha with rfl | ha
          · have hpq : p = qo := by rw [hqo] at hp; exact (Option.some.inj hp).symm
            have hcp : valD (jsNum ch.total_amount) ≤ p.val := by
              rw [hqc, valD_some, hpq]
              exact hq
            exact le_trans hle hcp
          · exact hall a ha p hp

theorem pickCheapestGo_none_eq :
    ∀ (l : List Offer), (∀ o ∈ l, jsNum o.total_amount = none) →
      pickCheapestGo none l = none := by
  intro l
  induction l with
  | nil => intro _; rfl
  | cons o l ih =>
    intro h
    have ho := h o (List.mem_cons_self _ _)
    simp only [pickCheapestGo, ho]
    exact ih (fun a ha => h a (List.mem_cons_of_mem _ ha))

/-- A minimal JSON value, enough to describe the order-creation request
bodies the backend submits. -/
inductive JVal where
  | null
  | bool (b : Bool)
  | str (s : String)
  | arr (items : List JVal)
  | obj (fields : List (String × JVal))

mutual

/-- Whether key `k` occurs as a field name anywhere in a JSON value. -/
def keyOccurs (k : String) : JVal → Bool
  | .obj fields => keyOccursFields k fields
  | .arr items => keyOccursList k items
  | _ => false

/-- Whether key `k` occurs in a field list or below it. -/
def keyOccursFields (k : String) : List (String × JVal) → Bool
  | [] => false
  | (name, v) :: rest => name == k || keyOccurs k v || keyOccursFields k rest

/-- Whether key `k` occurs below any element of a JSON array. -/
def keyOccursList (k : String) : List JVal → Bool
  | [] => false
  | v :: rest => keyOccurs k v || keyOccursList k rest

end

/-- JavaScript `a || dflt` for a possibly-absent string (the empty string is
falsy). -/
def jsOrD (v : Option String) (dflt : String) : String :=
  match v with
  | some s => if s = "" then dflt else s
  | none => dflt

/-- JavaScript `a || undefined` for a possibly-absent string. -/
def jsOrU (v : Option String) : Option String :=
  match v with
  | some s => if s = "" then none else some s
  | none => none

/-- A passenger stub attached to a fetched offer (provider-assigned id). -/
structure PassengerStub where
  id : String
deriving Repr, DecidableEq

/-- `server.js` `/hold`: the passenger object mapped from one offer
passenger stub, with defaults `title || "mr"` and
`born_on || "1990-01-01"`. -/
def holdPassengerSrv (title born_on : Option String) (given_name family_name : String)
    (p : PassengerStub) : JVal :=
  .obj [("id", .str p.id),
        ("title", .str (jsOrD title "mr")),
        ("given_name", .str given_name),
        ("family_name", .str family_name),
        ("born_on", .str (jsOrD born_on "1990-01-01"))]

/-- `server.js` `/hold`: the `orderPayload` submitted to `/air/orders`:
`{ data: { selected_offers: [offer_id], payment_required: false, passengers } }`. -/
def orderPayloadSrv (offer_id : String) (stubs : List PassengerStub)
    (title born_on : Option String) (given_name family_name : String) : JVal :=
  .obj [("data", .obj
    [("selected_offers", .arr [.str offer_id]),
     ("payment_required", .bool false),
     ("passengers", .arr (stubs.map (holdPassengerSrv title born_on given_name family_name)))])]

/-- `part_001` `/hold`: the passenger object built from the request fields;
`phone_number: phone_number || undefined` is omitted from the serialized
body when absent or empty. -/
def holdPassenger001 (pid given_name family_name email born_on gender title : String)
    (phone_number : Option String) : JVal :=
  .obj ([("id", .str pid),
         ("given_name", .str given_name),
         ("family_name", .str family_name),
         ("email", .str email),
         ("born_on", .str born_on),
         ("gender", .str gender),
         ("title", .str title)] ++
        (match jsOrU phone_number with
         | some ph => [("phone_number", .str ph)]
         | none => []))

/-- `part_001` `/hold`: the order body submitted to `/air/orders`; no
payments field at all (the source comments: no payments field means the
order is created without payment). -/
def orderBody001 (offer_id : String) (passenger : JVal) : JVal :=
  .obj [("data", .obj
    [("selected_offers", .arr [.str offer_id]),
     ("passengers", .arr [passenger])])]

/-- The provider's order-creation response fields read by `server.js`
`/hold` when assembling its reply (`none` means the field was omitted
upstream). -/
structure OrderResp where
  id : Option String
  booking_reference : Option String
  expires_at : Option String
  payment_due_at : Option String
  total_amount : Option String
  total_currency : Option String
deriving Repr, DecidableEq

/-- The totals of the previously fetched offer, used by `server.js` `/hold`
as a fallback when the order response omits them. -/
structure OfferTotals where
  total_amount : Option String
  total_currency : Option String
deriving Repr, DecidableEq

/-- The `hold` object `server.js` returns to the caller. -/
structure HoldReceipt where
  order_id : Option String
  pnr : Option String
  expires_at : Option String
  total_amount : Option String
  total_currency : Option String
deriving Repr, DecidableEq

/-- JavaScript `a || b` on possibly-absent strings (the empty string is
falsy); `a || b || null` is `jsOrN a (jsOrN b none)`. -/
def jsOrN (a b : Option String) : Option String :=
  match a with
  | some s => if s = "" then b else some s
  | none => b

/-- The hold response assembly of `server.js` `/hold`:
`order_id: order?.id || null`, `pnr: order?.booking_reference || null`,
`expires_at: order?.expires_at || order?.payment_due_at || null`,
`total_amount: order?.total_amount || offer?.total_amount || null`,
`total_currency: order?.total_currency || offer?.total_currency || null`. -/
def holdResponse (order : OrderResp) (offer : OfferTotals) : HoldReceipt :=
  { order_id := jsOrN order.id none
    pnr := jsOrN order.booking_reference none
    expires_at := jsOrN order.expires_at (jsOrN order.payment_due_at none)
    total_amount := jsOrN order.total_amount (jsOrN offer.total_amount none)
    total_currency := jsOrN order.total_currency (jsOrN offer.total_currency none) }

/-- A cross-destination candidate as the spec describes it, for the
hold-preference selection step: a price already parsed from the decimal
string and the offer's instant-payment requirement. -/
structure Candidate where
  destination : String
  price : DecNum
  requiresInstantPayment : Bool
deriving Repr, DecidableEq

/-- Modelled from the spec: no file under src implements
`preferHoldEligible` or `paymentRequirements.requiresInstantPayment`; this
follows spec section 4.3 steps 3 and 4 word for word — across all
destinations that produced a candidate, if `preferHoldEligible` is set,
restrict to the subset where `requiresInstantPayment === false`, falling
back to the full candidate set when that subset is empty, then select the
global minimum by price (ties to the earlier candidate). -/
def selectBest (preferHoldEligible : Bool) (cands : List Candidate) : Option Candidate :=
  let pool :=
    if preferHoldEligible then
      match cands.filter (fun c => !c.requiresInstantPayment) with
      | [] => cands
      | held => held
    else cands
  jsMinReduce (fun c => some c.price) pool

/-- The per-destination candidate rule as claim C3 states it (filter every
offer through the price ceiling first, then take the cheapest survivor),
stated for comparison with `destCandidate`, which is what the code does. -/
def destCandidateSpec (provider : String → DestOutcome) (maxPriceUsd : DecNum)
    (origin dest : String) : Option QuoteResult :=
  if dest = origin then none
  else
    match provider dest with
    | .offersOk offers =>
      match cheapestReduce (offers.filter (fun o => !ceilingRejects o maxPriceUsd)) with
      | none => none
      | some cheapest =>
        some ⟨dest, cheapest.id, cheapest.total_amount, cheapest.total_currency⟩
    | _ => none

theorem quoteSearch_ok_iff (provider : String → DestOutcome) (m : DecNum) (origin : String)
    (pool : List String) (w : QuoteResult) :
    quoteSearch provider m origin pool = .ok w ↔
      winnerReduce (quoteLoop provider m origin pool).1 = some w := by
  unfold quoteSearch
  cases hr : winnerReduce (quoteLoop provider m origin pool).1 with
  | none => simp
  | some w2 => simp

/-- Under the data-model invariant that every provider amount parses to a
finite number, every accumulated candidate's amount parses too. -/
theorem results_finite (provider : String → DestOutcome) (m : DecNum) (origin : String)
    (pool : List String)
    (hfin : ∀ d offers, provider d = .offersOk offers →
      ∀ o ∈ offers, (jsNum o.total_amount).isSome) :
    ∀ r ∈ (quoteLoop provider m origin pool).1, (jsNum r.total_amount).isSome := by
  intro r hr
  rw [quoteLoop_eq] at hr
  obtain ⟨d, hd, hcand⟩ := List.mem_filterMap.mp hr
  obtain ⟨-, offers, ch, hp, hch, hchmem, -, rfl⟩ := destCandidate_inv _ _ _ _ _ hcand
  exact hfin d offers hp ch hchmem

/-- C2: the configured price ceiling (its currency is the constant "USD" in
the code) rejects an offer exactly when the offer's currency equals the
ceiling's currency and the offer's parsed price strictly exceeds the
ceiling amount; an offer in any other currency is never rejected by the
ceiling, whatever its price. -/
theorem ceilingRejects_iff (o : Offer) (m : DecNum) :
    (ceilingRejects o m = true ↔
      o.total_currency = "USD" ∧ ∃ q, jsNum o.total_amount = some q ∧ m.val < q.val)
    ∧ (o.total_currency ≠ "USD" → ceilingRejects o m = false) := by
  constructor
  · unfold ceilingRejects jsGtB
    cases hq : jsNum o.total_amount with
    | none => simp [jsLtB]
    | some q => simp [jsLtB_some_iff, Bool.and_eq_true, beq_iff_eq]
  · intro h
    unfold ceilingRejects
    simp [h]

/-- C2 witness: a 500.00 EUR offer is not rejected by a 200 USD ceiling. -/
theorem ceilingRejects_iff_witness :
    ceilingRejects ⟨"off_eur", "500.00", "EUR"⟩ ⟨200, 0⟩ = false :=
  (ceilingRejects_iff ⟨"off_eur", "500.00", "EUR"⟩ ⟨200, 0⟩).2 (by decide)

/-- C4 counterexample: on the three-token name "Anna Maria Smith",
`splitName` returns given name "Anna Maria" and family name "Smith" — not
given "Anna" with family "Maria Smith" as the claim (first token = given,
rest = family) requires. -/
theorem splitName_counterexample :
    splitName "Anna Maria Smith" = ("Anna Maria", "Smith") ∧
    splitName "Anna Maria Smith" ≠ ("Anna", "Maria Smith") := by
  decide

/-- C4 amended: name splitting returns the LAST whitespace-delimited token
as the family name and the remaining tokens joined by single spaces as the
given name; a single-token name keeps that token as given name with the
placeholder family name "User", and an empty or whitespace-only name gets
the placeholders "Test"/"User". -/
theorem splitName_amended :
    splitName "" = ("Test", "User") ∧
    splitName "Madonna" = ("Madonna", "User") ∧
    splitName "Jane Doe" = ("Jane", "Doe") ∧
    (∀ s : String, jsTrim s.data = [] → splitName s = ("Test", "User")) ∧
    (∀ s : String, ∀ t, jsTrim s.data ≠ [] → wsTokens (jsTrim s.data) = [t] →
      splitName s = (t, "User")) ∧
    (∀ s : String, 2 ≤ (wsTokens (jsTrim s.data)).length →
      splitName s = (joinSpace (wsTokens (jsTrim s.data)).dropLast,
                     (wsTokens (jsTrim s.data)).getLastD "")) := by
  refine ⟨by decide, by decide, by decide, ?_, ?_, ?_⟩
  · intro s h
    unfold splitName
    simp [h]
  · intro s t hne ht
    unfold splitName
    rw [if_neg (by simpa [List.isEmpty_iff] using hne), ht]
    simp
  · intro s hlen
    have hne : jsTrim s.data ≠ [] := by
      intro h
      rw [h] at hlen
      simp [wsTokens, wsTokensGo] at hlen
    unfold splitName
    rw [if_neg (by simpa [List.isEmpty_iff] using hne),
        if_neg (by omega : ¬(wsTokens (jsTrim s.data)).length = 1)]

/-- C4 amended witness: the multi-token rule applied to a concrete name. -/
theorem splitName_amended_witness :
    splitName "Anna Maria  Smith" = ("Anna Maria", "Smith") := by
  have h := splitName_amended.2.2.2.2.2 "Anna Maria  Smith" (by decide)
  rw [h]
  decide

/-- C10 helper: if the `pickCheapestOffer` loop returns `null`, no offer in
the list had a finite amount. -/
theorem pickCheapest_none_forward :
    ∀ (l : List Offer), pickCheapestOffer l = none → ∀ o ∈ l, jsNum o.total_amount = none := by
  intro l
  induction l with
  | nil => intro _ o ho; cases ho
  | cons o l ih =>
    intro h a ha
    cases hq : jsNum o.total_amount with
    | none =>
      have h2 : pickCheapestOffer l = none := by
        unfold pickCheapestOffer at h ⊢
        simpa [pickCheapestGo, hq] using h
      rcases List.mem_cons.mp ha with rfl | ha
      · exact hq
      · exact ih h2 a ha
    | some q =>
      exfalso
      have hs : (jsNum o.total_amount).isSome := by rw [hq]; rfl
      obtain ⟨w, hw, -⟩ := pickCheapestGo_spec l o hs
      unfold pickCheapestOffer at h
      rw [show pickCheapestGo none (o :: l) = pickCheapestGo (some o) l from by
            simp [pickCheapestGo, hs], hw] at h
      cases h

/-- C10 helper: a returned offer is in the list, parses finitely, and is
minimal among the finite-parsing elements. -/
theorem pickCheapest_some_spec :
    ∀ (l : List Offer) (c : Offer), pickCheapestOffer l = some c →
      c ∈ l ∧ (jsNum c.total_amount).isSome ∧
        ∀ o ∈ l, ∀ p, jsNum o.total_amount = some p → valD (jsNum c.total_amount) ≤ p.val := by
  intro l
  induction l with
  | nil => intro c h; cases h
  | cons o l ih =>
    intro c h
    cases hq : jsNum o.total_amount with
    | none =>
      have h2 : pickCheapestOffer l = some c := by
        unfold pickCheapestOffer at h ⊢
        simpa [pickCheapestGo, hq] using h
      obtain ⟨hmem, hsome, hmin⟩ := ih c h2
      refine ⟨List.mem_cons_of_mem _ hmem, hsome, ?_⟩
      intro a ha p hp
      rcases List.mem_cons.mp ha with rfl | ha
      · rw [hq] at hp; cases hp
      · exact hmin a ha p hp
    | some q =>
      have hs : (jsNum o.total_amount).isSome := by rw [hq]; rfl
      obtain ⟨w, hw, hmem, hws, hle, hall⟩ := pickCheapestGo_spec l o hs
      unfold pickCheapestOffer at h
      rw [show pickCheapestGo none (o :: l) = pickCheapestGo (some o) l from by
            simp [pickCheapestGo, hs], hw] at h
      obtain rfl : w = c := Option.some.inj h
      refine ⟨?_, hws, ?_⟩
      · rcases hmem with rfl | hmem
        · exact List.mem_cons_self _ _
        · exact List.mem_cons_of_mem _ hmem
      · intro a ha p hp
        rcases List.mem_cons.mp ha with rfl | ha
        · have hpq : p = q := by rw [hq] at hp; exact (Option.some.inj hp).symm
          have : valD (jsNum a.total_amount) = p.val := by rw [hq, hpq, valD_some]
          exact this ▸ hle
        · exact hall a ha p hp

/-- C10: `pickCheapestOffer` returns `null` exactly when no input offer's
`total_amount` parses to a finite number (in particular on the empty list),
and otherwise returns an element of the input whose parsed amount is finite
and minimal among all finite-parsing elements — an offer with a non-numeric
price is never selected. -/
theorem pickCheapestOffer_spec (offers : List Offer) :
    (pickCheapestOffer offers = none ↔ ∀ o ∈ offers, jsNum o.total_amount = none)
    ∧ (∀ c, pickCheapestOffer offers = some c →
        c ∈ offers ∧ ∃ q, jsNum c.total_amount = some q ∧
          ∀ o ∈ offers, ∀ p, jsNum o.total_amount = some p → q.val ≤ p.val) := by
  constructor
  · constructor
    · exact pickCheapest_none_forward offers
    · exact pickCheapestGo_none_eq offers
  · intro c h
    obtain ⟨hmem, hsome, hmin⟩ := pickCheapest_some_spec offers c h
    obtain ⟨q, hq⟩ := Option.isSome_iff_exists.mp hsome
    refine ⟨hmem, q, hq, ?_⟩
    intro o ho p hp
    have : valD (jsNum c.total_amount) = q.val := by rw [hq, valD_some]
    exact this ▸ hmin o ho p hp

/-- C10 witness: on a list with a non-numeric amount, the loop returns the
cheapest finite-parsing offer. -/
theorem pickCheapestOffer_spec_witness :
    (⟨"o3", "9.0", "USD"⟩ : Offer) ∈
        [(⟨"o1", "abc", "USD"⟩ : Offer), ⟨"o2", "10.5", "USD"⟩, ⟨"o3", "9.0", "USD"⟩] ∧
    ∃ q, jsNum (Offer.total_amount ⟨"o3", "9.0", "USD"⟩) = some q ∧
      ∀ o ∈ [(⟨"o1", "abc", "USD"⟩ : Offer), ⟨"o2", "10.5", "USD"⟩, ⟨"o3", "9.0", "USD"⟩],
        ∀ p, jsNum o.total_amount = some p → q.val ≤ p.val :=
  (pickCheapestOffer_spec _).2 ⟨"o3", "9.0", "USD"⟩ (by decide)

/-- C3 counterexample: for a destination whose offers are 300.00 USD and
500.00 EUR under a 200 USD ceiling, the code discards the destination
entirely — the ceiling is applied only after the cheapest raw offer has
been chosen — while the claim's filter-every-offer-then-select rule would
produce the surviving 500.00 EUR offer as the candidate; the whole search
then returns "no eligible offers". -/
theorem destCandidate_counterexample :
    destCandidate (fun _ => .offersOk [⟨"o1", "300.00", "USD"⟩, ⟨"o2", "500.00", "EUR"⟩])
        ⟨200, 0⟩ "BKK" "AAA" = none ∧
    destCandidateSpec (fun _ => .offersOk [⟨"o1", "300.00", "USD"⟩, ⟨"o2", "500.00", "EUR"⟩])
        ⟨200, 0⟩ "BKK" "AAA" = some ⟨"AAA", "o2", "500.00", "EUR"⟩ ∧
    quoteSearch (fun _ => .offersOk [⟨"o1", "300.00", "USD"⟩, ⟨"o2", "500.00", "EUR"⟩])
        ⟨200, 0⟩ "BKK" ["AAA"] = .noEligible [] := by
  decide

/-- C3 amended: for each destination the aggregator first selects the
minimum-priced offer among ALL offers returned for it (ties to the
provider's first) and only then applies the price ceiling to that single
offer; if that one offer fails the ceiling, the destination contributes no
candidate, even when a pricier offer (for instance one in a non-matching
currency) would have survived the filter. -/
theorem destCandidate_min_then_ceiling (provider : String → DestOutcome) (m : DecNum)
    (origin dest : String) (offers : List Offer)
    (hne : dest ≠ origin) (hp : provider dest = .offersOk offers)
    (hfin : ∀ o ∈ offers, (jsNum o.total_amount).isSome) (h0 : offers ≠ []) :
    ∃ cheapest, cheapestReduce offers = some cheapest ∧ cheapest ∈ offers ∧
      (∀ o ∈ offers, valD (jsNum cheapest.total_amount) ≤ valD (jsNum o.total_amount)) ∧
      destCandidate provider m origin dest =
        (if ceilingRejects cheapest m then none
         else some ⟨dest, cheapest.id, cheapest.total_amount, cheapest.total_currency⟩) := by
  obtain ⟨ch, hch⟩ : ∃ ch, cheapestReduce offers = some ch := by
    cases hcr : cheapestReduce offers with
    | none => exact absurd ((jsMinReduce_eq_none_iff _ _).mp hcr) h0
    | some ch => exact ⟨ch, rfl⟩
  obtain ⟨hmem, -, hmin⟩ := jsMinReduce_min _ offers hfin ch hch
  refine ⟨ch, hch, hmem, hmin, ?_⟩
  unfold destCandidate
  rw [if_neg hne, hp]
  simp only [hch]

/-- C3 amended witness: at the counterexample input the cheapest raw offer
is the 300.00 USD one and the ceiling then erases the destination. -/
theorem destCandidate_min_then_ceiling_witness :
    ∃ cheapest,
      cheapestReduce [(⟨"o1", "300.00", "USD"⟩ : Offer), ⟨"o2", "500.00", "EUR"⟩] = some cheapest ∧
      cheapest ∈ [(⟨"o1", "300.00", "USD"⟩ : Offer), ⟨"o2", "500.00", "EUR"⟩] ∧
      (∀ o ∈ [(⟨"o1", "300.00", "USD"⟩ : Offer), ⟨"o2", "500.00", "EUR"⟩],
        valD (jsNum cheapest.total_amount) ≤ valD (jsNum o.total_amount)) ∧
      destCandidate (fun _ => .offersOk [⟨"o1", "300.00", "USD"⟩, ⟨"o2", "500.00", "EUR"⟩])
          ⟨200, 0⟩ "BKK" "AAA" =
        (if ceilingRejects cheapest ⟨200, 0⟩ then none
         else some ⟨"AAA", cheapest.id, cheapest.total_amount, cheapest.total_currency⟩) :=
  destCandidate_min_then_ceiling
    (fun _ => .offersOk [⟨"o1", "300.00", "USD"⟩, ⟨"o2", "500.00", "EUR"⟩])
    ⟨200, 0⟩ "BKK" "AAA" [⟨"o1", "300.00", "USD"⟩, ⟨"o2", "500.00", "EUR"⟩]
    (by decide) rfl (by decide) (by decide)

/-- C5: a provider failure on one destination only appends that
destination's diagnostic and removes its candidate — the fan-out
decomposes per destination, so no failure aborts the rest — and when no
destination produced a candidate, the search returns the "no eligible
offers" outcome carrying `errors.slice(0, 5)`, which holds at most 5
diagnostics. -/
theorem quote_diag_spec (provider : String → DestOutcome) (m : DecNum) (origin : String)
    (pool : List String) :
    ((quoteLoop provider m origin pool).1 =
        pool.filterMap (destCandidate provider m origin) ∧
     (quoteLoop provider m origin pool).2 =
        pool.filterMap (destDiag provider origin)) ∧
    (∀ dest st body, dest ≠ origin → provider dest = .reqFail st body →
      destDiag provider origin dest =
          some ⟨"offer_request", dest, some st, some (jsSlice body 300), none⟩ ∧
      destCandidate provider m origin dest = none) ∧
    (∀ dest st body, dest ≠ origin → provider dest = .offersFail st body →
      destDiag provider origin dest =
          some ⟨"offers_fetch", dest, some st, some (jsSlice body 300), none⟩ ∧
      destCandidate provider m origin dest = none) ∧
    ((quoteLoop provider m origin pool).1 = [] →
      quoteSearch provider m origin pool =
          .noEligible ((quoteLoop provider m origin pool).2.take 5) ∧
      ((quoteLoop provider m origin pool).2.take 5).length ≤ 5) := by
  refine ⟨⟨?_, ?_⟩, ?_, ?_, ?_⟩
  · rw [quoteLoop_eq]
  · rw [quoteLoop_eq]
  · intro dest st body hne hp
    constructor
    · unfold destDiag
      rw [if_neg hne, hp]
    · unfold destCandidate
      rw [if_neg hne, hp]
  · intro dest st body hne hp
    constructor
    · unfold destDiag
      rw [if_neg hne, hp]
    · unfold destCandidate
      rw [if_neg hne, hp]
  · intro h
    constructor
    · unfold quoteSearch
      rw [h]
      rfl
    · rw [List.length_take]
      exact min_le_left _ _

/-- The provider behaviour used to exercise the diagnostic path: the offer
request fails for AAA, the offers fetch fails for BBB. -/
def failProvider : String → DestOutcome := fun d =>
  if d = "AAA" then .reqFail 500 "boom"
  else if d = "BBB" then .offersFail 404 "nope"
  else .reqNoId

/-- C5 witness: both failing destinations are recorded and skipped, and the
search over them returns "no eligible offers" with at most 5 diagnostics. -/
theorem quote_diag_spec_witness :
    destDiag failProvider "BKK" "AAA" =
        some ⟨"offer_request", "AAA", some 500, some (jsSlice "boom" 300), none⟩ ∧
    destCandidate failProvider ⟨200, 0⟩ "BKK" "AAA" = none ∧
    quoteSearch failProvider ⟨200, 0⟩ "BKK" ["AAA", "BBB"] =
        .noEligible ((quoteLoop failProvider ⟨200, 0⟩ "BKK" ["AAA", "BBB"]).2.take 5) ∧
    ((quoteLoop failProvider ⟨200, 0⟩ "BKK" ["AAA", "BBB"]).2.take 5).length ≤ 5 := by
  have h := quote_diag_spec failProvider ⟨200, 0⟩ "BKK" ["AAA", "BBB"]
  have h1 := h.2.1 "AAA" 500 "boom" (by decide) rfl
  have h2 := h.2.2.2 (by decide)
  exact ⟨h1.1, h1.2, h2.1, h2.2⟩

/-- C8 counterexample: when the provider's order response omits every
field, `server.js` still fills `total_amount` and `total_currency` of the
receipt from the previously fetched offer, instead of reporting null. -/
theorem holdResponse_counterexample :
    holdResponse ⟨none, none, none, none, none, none⟩ ⟨some "123.45", some "USD"⟩ =
      ⟨none, none, none, some "123.45", some "USD"⟩ ∧
    (holdResponse ⟨none, none, none, none, none, none⟩
        ⟨some "123.45", some "USD"⟩).total_amount ≠ none := by
  decide

/-- C8 amended: of the receipt fields, an omitted order id, booking
reference or payment deadline is reported as null (and is never taken from
the offer), while omitted totals fall back to the fetched offer's totals
and are null only when the offer omits them too. -/
theorem holdResponse_amended (order : OrderResp) (offer : OfferTotals) :
    (order.id = none → (holdResponse order offer).order_id = none) ∧
    (order.booking_reference = none → (holdResponse order offer).pnr = none) ∧
    (order.expires_at = none → order.payment_due_at = none →
      (holdResponse order offer).expires_at = none) ∧
    (∀ offer2, (holdResponse order offer).order_id = (holdResponse order offer2).order_id ∧
      (holdResponse order offer).pnr = (holdResponse order offer2).pnr ∧
      (holdResponse order offer).expires_at = (holdResponse order offer2).expires_at) ∧
    (order.total_amount = none →
      (holdResponse order offer).total_amount = jsOrN offer.total_amount none) ∧
    (order.total_amount = none → offer.total_amount = none →
      (holdResponse order offer).total_amount = none) ∧
    (order.total_currency = none →
      (holdResponse order offer).total_currency = jsOrN offer.total_currency none) ∧
    (order.total_currency = none → offer.total_currency = none →
      (holdResponse order offer).total_currency = none) := by
  unfold holdResponse
  refine ⟨fun h => by simp [jsOrN, h],
          fun h => by simp [jsOrN, h],
          fun h1 h2 => by simp [jsOrN, h1, h2],
          fun offer2 => ⟨rfl, rfl, rfl⟩,
          fun h => by simp [jsOrN, h],
          fun h1 h2 => by simp [jsOrN, h1, h2],
          fun h => by simp [jsOrN, h],
          fun h1 h2 => by simp [jsOrN, h1, h2]⟩

/-- C8 amended witness: with an all-omitted order response, the id fields
are null and the total falls back to the offer's decimal string. -/
theorem holdResponse_amended_witness :
    (holdResponse ⟨none, none, none, none, none, none⟩
        ⟨some "123.45", some "USD"⟩).order_id = none ∧
    (holdResponse ⟨none, none, none, none, none, none⟩
        ⟨some "123.45", some "USD"⟩).total_amount = jsOrN (some "123.45") none :=
  ⟨(holdResponse_amended ⟨none, none, none, none, none, none⟩
      ⟨some "123.45", some "USD"⟩).1 rfl,
   (holdResponse_amended ⟨none, none, none, none, none, none⟩
      ⟨some "123.45", some "USD"⟩).2.2.2.2.1 rfl⟩

theorem keyOccursList_srv_passengers (title born_on : Option String) (g f : String) :
    ∀ stubs : List PassengerStub,
      keyOccursList "payment" (stubs.map (holdPassengerSrv title born_on g f)) = false ∧
      keyOccursList "payments" (stubs.map (holdPassengerSrv title born_on g f)) = false := by
  intro stubs
  induction stubs with
  | nil => exact ⟨rfl, rfl⟩
  | cons p rest ih =>
    refine ⟨?_, ?_⟩
    · simp only [List.map_cons, keyOccursList, ih.1, Bool.or_false]
      rfl
    · simp only [List.map_cons, keyOccursList, ih.2, Bool.or_false]
      rfl

/-- C6: neither order-creation request body built for a hold — the
`server.js` `orderPayload` (which carries `payment_required: false`) nor
the `part_001` order body — contains a `payment` or `payments` field
anywhere, for any input: no payment instruction of any kind is submitted. -/
theorem orderPayload_no_payment (offer_id : String) (stubs : List PassengerStub)
    (title born_on : Option String) (given_name family_name : String)
    (pid gn fn email born gender t : String) (phone : Option String) :
    keyOccurs "payment"
        (orderPayloadSrv offer_id stubs title born_on given_name family_name) = false ∧
    keyOccurs "payments"
        (orderPayloadSrv offer_id stubs title born_on given_name family_name) = false ∧
    keyOccurs "payment"
        (orderBody001 offer_id (holdPassenger001 pid gn fn email born gender t phone)) = false ∧
    keyOccurs "payments"
        (orderBody001 offer_id (holdPassenger001 pid gn fn email born gender t phone)) = false := by
  have hl := keyOccursList_srv_passengers title born_on given_name family_name stubs
  refine ⟨?_, ?_, ?_, ?_⟩
  · simp [orderPayloadSrv, keyOccurs, keyOccursFields, keyOccursList, hl.1]
  · simp [orderPayloadSrv, keyOccurs, keyOccursFields, keyOccursList, hl.2]
  · unfold orderBody001 holdPassenger001
    cases hu : jsOrU phone with
    | none => rfl
    | some ph => rfl
  · unfold orderBody001 holdPassenger001
    cases hu : jsOrU phone with
    | none => rfl
    | some ph => rfl

/-- C7 (spec-modelled): with `preferHoldEligible` set, the selection never
turns a non-empty candidate set into no result; on a mixed set it returns a
hold-eligible candidate that is price-minimal among the hold-eligible ones,
and when no candidate is hold-eligible it falls back to the price-minimal
candidate of the full set. -/
theorem selectBest_spec (cands : List Candidate) :
    (cands ≠ [] → selectBest true cands ≠ none) ∧
    (∀ w, selectBest true cands = some w →
      ((∃ c ∈ cands, c.requiresInstantPayment = false) →
        w ∈ cands ∧ w.requiresInstantPayment = false ∧
        ∀ c ∈ cands, c.requiresInstantPayment = false → w.price.val ≤ c.price.val) ∧
      ((∀ c ∈ cands, c.requiresInstantPayment = true) →
        w ∈ cands ∧ ∀ c ∈ cands, w.price.val ≤ c.price.val)) := by
  constructor
  · intro hne hcontra
    rw [show selectBest true cands =
          jsMinReduce (fun c => some c.price)
            (match cands.filter (fun c => !c.requiresInstantPayment) with
             | [] => cands
             | held => held) from rfl] at hcontra
    cases hfil : cands.filter (fun c => !c.requiresInstantPayment) with
    | nil =>
      rw [hfil] at hcontra
      exact hne ((jsMinReduce_eq_none_iff _ _).mp hcontra)
    | cons h tl =>
      rw [hfil] at hcontra
      exact List.cons_ne_nil h tl ((jsMinReduce_eq_none_iff _ _).mp hcontra)
  · intro w hw
    have hw2 : jsMinReduce (fun c => some c.price)
        (match cands.filter (fun c => !c.requiresInstantPayment) with
         | [] => cands
         | held => held) = some w := hw
    constructor
    · intro hex
      obtain ⟨c, hc, hcf⟩ := hex
      have hcfil : c ∈ cands.filter (fun c => !c.requiresInstantPayment) :=
        List.mem_filter.mpr ⟨hc, by simp [hcf]⟩
      cases hfil : cands.filter (fun c => !c.requiresInstantPayment) with
      | nil => rw [hfil] at hcfil; cases hcfil
      | cons h tl =>
        rw [hfil] at hw2
        obtain ⟨hwmem, -, hmin⟩ :=
          jsMinReduce_min (fun c => some c.price) (h :: tl) (fun a _ => rfl) w hw2
        rw [← hfil] at hwmem
        obtain ⟨hwc, hwp⟩ := List.mem_filter.mp hwmem
        refine ⟨hwc, by simpa using hwp, ?_⟩
        intro c2 hc2 hcf2
        have hc2fil : c2 ∈ cands.filter (fun c => !c.requiresInstantPayment) :=
          List.mem_filter.mpr ⟨hc2, by simp [hcf2]⟩
        rw [hfil] at hc2fil
        have := hmin c2 hc2fil
        simpa [valD] using this
    · intro hall
      have hfil : cands.filter (fun c => !c.requiresInstantPayment) = [] := by
        rw [List.filter_eq_nil_iff]
        intro a ha
        simp [hall a ha]
      rw [hfil] at hw2
      obtain ⟨hwmem, -, hmin⟩ :=
        jsMinReduce_min (fun c => some c.price) cands (fun a _ => rfl) w hw2
      refine ⟨hwmem, ?_⟩
      intro c hc
      have := hmin c hc
      simpa [valD] using this

/-- C7 witness: on the mixed candidate set A (50, instant), B (60, hold),
C (55, hold), the selection returns C — hold-eligible and minimal among the
hold-eligible ones, though A is cheaper overall. -/
theorem selectBest_spec_witness :
    (⟨"C", ⟨55, 0⟩, false⟩ : Candidate) ∈
        [(⟨"A", ⟨50, 0⟩, true⟩ : Candidate), ⟨"B", ⟨60, 0⟩, false⟩, ⟨"C", ⟨55, 0⟩, false⟩] ∧
    (⟨"C", ⟨55, 0⟩, false⟩ : Candidate).requiresInstantPayment = false ∧
    ∀ c ∈ [(⟨"A", ⟨50, 0⟩, true⟩ : Candidate), ⟨"B", ⟨60, 0⟩, false⟩, ⟨"C", ⟨55, 0⟩, false⟩],
      c.requiresInstantPayment = false →
        (⟨"C", ⟨55, 0⟩, false⟩ : Candidate).price.val ≤ c.price.val :=
  ((selectBest_spec _).2 ⟨"C", ⟨55, 0⟩, false⟩ (by decide)).1
    ⟨⟨"B", ⟨60, 0⟩, false⟩, by decide, rfl⟩

/-- C9: any winning quote's `total_amount`, `total_currency` and `offer_id`
are, character for character, the fields of one offer the provider returned
for one of the pool's destinations — the parsed number is used only for the
comparisons, never serialized back into the output. -/
theorem quote_amount_verbatim (provider : String → DestOutcome) (m : DecNum) (origin : String)
    (pool : List String) (w : QuoteResult)
    (hw : quoteSearch provider m origin pool = .ok w) :
    ∃ dest ∈ pool, ∃ offers, provider dest = .offersOk offers ∧
      ∃ o ∈ offers, w.offer_id = o.id ∧ w.total_amount = o.total_amount ∧
        w.total_currency = o.total_currency ∧ w.destination = dest := by
  have hres : winnerReduce (quoteLoop provider m origin pool).1 = some w :=
    (quoteSearch_ok_iff provider m origin pool w).mp hw
  have hmem := jsMinReduce_mem _ _ _ hres
  rw [quoteLoop_eq] at hmem
  obtain ⟨dest, hdest, hcand⟩ := List.mem_filterMap.mp hmem
  obtain ⟨-, offers, cheapest, hp, -, hchmem, -, rfl⟩ := destCandidate_inv _ _ _ _ _ hcand
  exact ⟨dest, hdest, offers, hp, cheapest, hchmem, rfl, rfl, rfl, rfl⟩

/-- The provider behaviour used to exercise the winning path: PNH offers
50.00 USD, KUL offers 45.00 USD, anything else yields no request id. -/
def sampleProvider : String → DestOutcome := fun d =>
  if d = "PNH" then .offersOk [⟨"p1", "50.00", "USD"⟩]
  else if d = "KUL" then .offersOk [⟨"k1", "45.00", "USD"⟩]
  else .reqNoId

/-- C9 witness: the winning KUL quote carries the verbatim fields of the
provider's KUL offer. -/
theorem quote_amount_verbatim_witness :
    ∃ dest ∈ ["PNH", "KUL"], ∃ offers, sampleProvider dest = .offersOk offers ∧
      ∃ o ∈ offers, (⟨"KUL", "k1", "45.00", "USD"⟩ : QuoteResult).offer_id = o.id ∧
        (⟨"KUL", "k1", "45.00", "USD"⟩ : QuoteResult).total_amount = o.total_amount ∧
        (⟨"KUL", "k1", "45.00", "USD"⟩ : QuoteResult).total_currency = o.total_currency ∧
        (⟨"KUL", "k1", "45.00", "USD"⟩ : QuoteResult).destination = dest :=
  quote_amount_verbatim sampleProvider ⟨60, 0⟩ "BKK" ["PNH", "KUL"]
    ⟨"KUL", "k1", "45.00", "USD"⟩ (by decide)

/-- C1: when the pool yields at least one candidate and every provider
amount parses to a finite number (the data-model invariant for decimal
price strings), the winning quote's parsed price is the minimum over all
accumulated candidates, and running the same search over any permutation
of the destination pool yields a winner with the same price — pool order
can only change which equal-priced candidate wins. -/
theorem quote_min_price_perm_invariant (provider : String → DestOutcome) (m : DecNum)
    (origin : String) (pool pool2 : List String) (hperm : pool.Perm pool2)
    (hfin : ∀ d offers, provider d = .offersOk offers →
      ∀ o ∈ offers, (jsNum o.total_amount).isSome)
    (w : QuoteResult) (hw : quoteSearch provider m origin pool = .ok w) :
    ∃ nw, jsNum w.total_amount = some nw ∧
      w ∈ (quoteLoop provider m origin pool).1 ∧
      (∀ r ∈ (quoteLoop provider m origin pool).1,
        ∀ nr, jsNum r.total_amount = some nr → nw.val ≤ nr.val) ∧
      ∃ w2, quoteSearch provider m origin pool2 = .ok w2 ∧
        ∃ nw2, jsNum w2.total_amount = some nw2 ∧ nw2.val = nw.val := by
  have hfinR : ∀ r ∈ (quoteLoop provider m origin pool).1, (jsNum r.total_amount).isSome :=
    results_finite provider m origin pool (fun d offers hp o ho => hfin d offers hp o ho)
  have hfinR2 : ∀ r ∈ (quoteLoop provider m origin pool2).1, (jsNum r.total_amount).isSome :=
    results_finite provider m origin pool2 (fun d offers hp o ho => hfin d offers hp o ho)
  have hres : winnerReduce (quoteLoop provider m origin pool).1 = some w :=
    (quoteSearch_ok_iff provider m origin pool w).mp hw
  have hres2a : jsMinReduce (fun r => jsNum r.total_amount)
      (quoteLoop provider m origin pool).1 = some w := hres
  obtain ⟨hwmem, hwsome, hwmin⟩ :=
    jsMinReduce_min (fun r => jsNum r.total_amount) _ hfinR w hres2a
  obtain ⟨nw, hnw⟩ := Option.isSome_iff_exists.mp hwsome
  have hvw : valD (jsNum w.total_amount) = nw.val := by rw [hnw, valD_some]
  -- the two result lists are permutations of each other
  have hpermR : ((quoteLoop provider m origin pool).1).Perm
      ((quoteLoop provider m origin pool2).1) := by
    rw [quoteLoop_eq, quoteLoop_eq]
    exact hperm.filterMap _
  -- the permuted search also yields a winner
  have hne2 : (quoteLoop provider m origin pool2).1 ≠ [] := by
    intro h0
    rw [h0] at hpermR
    rw [List.perm_nil.mp hpermR] at hwmem
    cases hwmem
  obtain ⟨w2, hres2⟩ : ∃ w2,
      winnerReduce (quoteLoop provider m origin pool2).1 = some w2 := by
    cases hr2 : winnerReduce (quoteLoop provider m origin pool2).1 with
    | none => exact absurd ((jsMinReduce_eq_none_iff _ _).mp hr2) hne2
    | some w2 => exact ⟨w2, rfl⟩
  have hres2b : jsMinReduce (fun r => jsNum r.total_amount)
      (quoteLoop provider m origin pool2).1 = some w2 := hres2
  obtain ⟨hw2mem, hw2some, hw2min⟩ :=
    jsMinReduce_min (fun r => jsNum r.total_amount) _ hfinR2 w2 hres2b
  obtain ⟨nw2, hnw2⟩ := Option.isSome_iff_exists.mp hw2some
  have hvw2 : valD (jsNum w2.total_amount) = nw2.val := by rw [hnw2, valD_some]
  refine ⟨nw, hnw, hwmem, ?_, w2, (quoteSearch_ok_iff provider m origin pool2 w2).mpr hres2,
          nw2, hnw2, ?_⟩
  · intro r hr nr hnr
    have := hwmin r hr
    rw [hvw] at this
    have hvr : valD (jsNum r.total_amount) = nr.val := by rw [hnr, valD_some]
    rw [hvr] at this
    exact this
  · have h1 : nw2.val ≤ nw.val := by
      have := hw2min w (hpermR.mem_iff.mp hwmem)
      rw [hvw2, hvw] at this
      exact this
    have h2 : nw.val ≤ nw2.val := by
      have := hwmin w2 (hpermR.mem_iff.mpr hw2mem)
      rw [hvw, hvw2] at this
      exact this
    exact le_antisymm h1 h2

/-- C1 witness: over the PNH/KUL pool with a 60 USD ceiling, the winner is
the 45.00 USD KUL offer, minimal among the candidates, and the reversed
pool wins at the same price. -/
theorem quote_min_price_perm_invariant_witness :
    ∃ nw, jsNum (QuoteResult.total_amount ⟨"KUL", "k1", "45.00", "USD"⟩) = some nw ∧
      (⟨"KUL", "k1", "45.00", "USD"⟩ : QuoteResult) ∈
        (quoteLoop sampleProvider ⟨60, 0⟩ "BKK" ["PNH", "KUL"]).1 ∧
      (∀ r ∈ (quoteLoop sampleProvider ⟨60, 0⟩ "BKK" ["PNH", "KUL"]).1,
        ∀ nr, jsNum r.total_amount = some nr → nw.val ≤ nr.val) ∧
      ∃ w2, quoteSearch sampleProvider ⟨60, 0⟩ "BKK" ["KUL", "PNH"] = .ok w2 ∧
        ∃ nw2, jsNum w2.total_amount = some nw2 ∧ nw2.val = nw.val := by
  refine quote_min_price_perm_invariant sampleProvider ⟨60, 0⟩ "BKK" ["PNH", "KUL"]
    ["KUL", "PNH"] (by decide) ?_ ⟨"KUL", "k1", "45.00", "USD"⟩ (by decide)
  intro d offers h o ho
  unfold sampleProvider at h
  by_cases h1 : d = "PNH"
  · rw [if_pos h1] at h
    rw [← DestOutcome.offersOk.inj h] at ho
    simp only [List.mem_singleton] at ho
    rw [ho]
    decide
  · rw [if_neg h1] at h
    by_cases h2 : d = "KUL"
    · rw [if_pos h2] at h
      rw [← DestOutcome.offersOk.inj h] at ho
      simp only [List.mem_singleton] at ho
      rw [ho]
      decide
    · rw [if_neg h2] at h
      cases h

end Duffel
